import Mathlib

/-!
Verification of the `pipe-emitter` message-framing and event-dispatch core
(`src/main.ts`).

The development shallowly embeds the framing codec and the connection-facing
operations of `Server` and `Client`:

* `PACKET_DELIMITER`, `encodeFrame` — the wire encoding
  `JSON.stringify({ event, data }) + PACKET_DELIMITER` (main.ts:18, 124, 265);
* `handleData` — the shared `'data'` handler of both roles
  (main.ts:78-92 and main.ts:227-241): split the chunk on the delimiter,
  parse each non-empty piece as JSON inside one `try`, dispatch
  `emitter.emit(json.event, json.data)` per parsed piece, and report a single
  `RECEIVE_ERROR` (aborting the loop) when a parse throws;
* `Server.emit` / `Client.emit` write-state guards (main.ts:121-131, 260-271);
* the connection-set bookkeeping of `Server.onConnection` (main.ts:75-105)
  and `clientCount` (main.ts:110-112);
* `Server.close` (main.ts:163-182) over a model of node's `net.Server`
  where `close` reports `ERR_SERVER_NOT_RUNNING` through its callback when
  the server is not listening;
* the constructor validation (main.ts:48-50, 211-213) and pipe-path
  construction (main.ts:59, 221).

JavaScript's `JSON` builtin is modelled by an executable mini-JSON
(`Json`, `stringifyVal`, `parseJson`).  The model covers the fragment the
library's protocol layer can produce: integer numerals, and strings whose
escapes are `\"` and `\\`; insignificant whitespace, floating-point
numerals and `\uXXXX` escapes are not modelled (the encoder never emits
them and no claim exercises them).  Chunks are modelled as `List Char`
(the handlers call `buffer.toString()` before splitting).
-/

set_option autoImplicit false

namespace PipeEmitter

/-! ### The wire delimiter (main.ts:18) -/

def PACKET_DELIMITER : List Char := "<<pipe-emitter>>".data

/-! ### `String.prototype.split(sep)` on the delimiter

`findSplit s` locates the first occurrence of `PACKET_DELIMITER` in `s`,
returning the text before it and the text after it.  `splitPackets`
iterates it, mirroring `buffer.toString().split(PACKET_DELIMITER)`
(main.ts:80, 229).  The iteration is written with explicit fuel so that
it evaluates by kernel reduction; `splitPackets` supplies fuel larger
than the input length, which is always sufficient since every delimiter
occurrence consumes at least one character. -/

def findSplit : List Char → Option (List Char × List Char)
  | [] => none
  | c :: cs =>
    if PACKET_DELIMITER.isPrefixOf (c :: cs) then
      some ([], List.drop PACKET_DELIMITER.length (c :: cs))
    else
      match findSplit cs with
      | some (b, a) => some (c :: b, a)
      | none => none

def splitLoop : Nat → List Char → List (List Char)
  | 0, s => [s]
  | f + 1, s =>
    match findSplit s with
    | none => [s]
    | some (b, a) => b :: splitLoop f a

def splitPackets (s : List Char) : List (List Char) :=
  splitLoop (s.length + 1) s

/-! ### The mini-JSON value model -/

mutual

inductive Json where
  | jnull : Json
  | jbool : Bool → Json
  | jnum : Int → Json
  | jstr : List Char → Json
  | jarr : JsonList → Json
  | jobj : JsonFields → Json

inductive JsonList where
  | nil : JsonList
  | cons : Json → JsonList → JsonList

inductive JsonFields where
  | nil : JsonFields
  | cons : List Char → Json → JsonFields → JsonFields

end

/-! ### `JSON.stringify` -/

def natToCharsAux : Nat → Nat → List Char
  | 0, _ => []
  | f + 1, n =>
    if n < 10 then [Nat.digitChar n]
    else natToCharsAux f (n / 10) ++ [Nat.digitChar (n % 10)]

def natToChars (n : Nat) : List Char :=
  natToCharsAux (n + 1) n

def intToChars (i : Int) : List Char :=
  if i < 0 then '-' :: natToChars i.natAbs else natToChars i.natAbs

def escapeChar (c : Char) : List Char :=
  if c = '"' ∨ c = '\\' then ['\\', c] else [c]

def escapeStr : List Char → List Char
  | [] => []
  | c :: cs => escapeChar c ++ escapeStr cs

mutual

def stringifyVal : Json → List Char
  | .jnull => ['n', 'u', 'l', 'l']
  | .jbool true => ['t', 'r', 'u', 'e']
  | .jbool false => ['f', 'a', 'l', 's', 'e']
  | .jnum i => intToChars i
  | .jstr s => '"' :: (escapeStr s ++ ['"'])
  | .jarr .nil => ['[', ']']
  | .jarr (.cons v tl) => '[' :: (stringifyVal v ++ stringifyElems tl)
  | .jobj .nil => ['{', '}']
  | .jobj (.cons k v tl) =>
      '{' :: '"' :: (escapeStr k ++ '"' :: ':' :: (stringifyVal v ++ stringifyFields tl))

/-- The text after one array element: the closing bracket, or a comma and
the remaining elements. -/
def stringifyElems : JsonList → List Char
  | .nil => [']']
  | .cons v tl => ',' :: (stringifyVal v ++ stringifyElems tl)

/-- The text after one object member: the closing brace, or a comma and the
remaining members. -/
def stringifyFields : JsonFields → List Char
  | .nil => ['}']
  | .cons k v tl => ',' :: '"' :: (escapeStr k ++ '"' :: ':' :: (stringifyVal v ++ stringifyFields tl))

end

/-! ### `JSON.parse` -/

def parseStringBody : List Char → Option (List Char × List Char)
  | [] => none
  | c :: r =>
    if c = '"' then some ([], r)
    else if c = '\\' then
      match r with
      | [] => none
      | c2 :: r2 =>
        if c2 = '"' ∨ c2 = '\\' then
          (parseStringBody r2).map (fun p => (c2 :: p.1, p.2))
        else none
    else (parseStringBody r).map (fun p => (c :: p.1, p.2))

def takeDigits : List Char → List Char × List Char
  | [] => ([], [])
  | c :: cs =>
    if c.isDigit then
      let p := takeDigits cs
      (c :: p.1, p.2)
    else ([], c :: cs)

def digitsToNat (ds : List Char) : Nat :=
  List.foldl (fun a c => a * 10 + (c.toNat - 48)) 0 ds

def parseNatNum (s : List Char) : Option (Nat × List Char) :=
  let p := takeDigits s
  if p.1 = [] then none
  else if p.1.head? = some '0' ∧ 1 < p.1.length then none
  else some (digitsToNat p.1, p.2)

def expectChars : List Char → List Char → Option (List Char)
  | [], r => some r
  | e :: es, c :: r => if c = e then expectChars es r else none
  | _ :: _, [] => none

mutual

def parseValue : Nat → List Char → Option (Json × List Char)
  | 0, _ => none
  | _ + 1, [] => none
  | f + 1, c :: r =>
    if c = 'n' then (expectChars ['u', 'l', 'l'] r).map (fun r2 => (.jnull, r2))
    else if c = 't' then (expectChars ['r', 'u', 'e'] r).map (fun r2 => (.jbool true, r2))
    else if c = 'f' then (expectChars ['a', 'l', 's', 'e'] r).map (fun r2 => (.jbool false, r2))
    else if c = '"' then (parseStringBody r).map (fun p => (.jstr p.1, p.2))
    else if c = '[' then
      match r with
      | [] => none
      | c2 :: r2 =>
        if c2 = ']' then some (.jarr .nil, r2)
        else (parseElems f (c2 :: r2)).map (fun p => (.jarr p.1, p.2))
    else if c = '{' then
      match r with
      | [] => none
      | c2 :: r2 =>
        if c2 = '}' then some (.jobj .nil, r2)
        else (parseFields f (c2 :: r2)).map (fun p => (.jobj p.1, p.2))
    else if c = '-' then
      (parseNatNum r).map (fun p => (.jnum (-(p.1 : Int)), p.2))
    else if c.isDigit then
      (parseNatNum (c :: r)).map (fun p => (.jnum (p.1 : Int), p.2))
    else none

def parseElems : Nat → List Char → Option (JsonList × List Char)
  | 0, _ => none
  | f + 1, s =>
    (parseValue f s).bind (fun p =>
      match p.2 with
      | [] => none
      | c :: r =>
        if c = ']' then some (.cons p.1 .nil, r)
        else if c = ',' then
          (parseElems f r).map (fun q => (.cons p.1 q.1, q.2))
        else none)

def parseFields : Nat → List Char → Option (JsonFields × List Char)
  | 0, _ => none
  | f + 1, s =>
    match s with
    | [] => none
    | c :: r =>
      if c = '"' then
        (parseStringBody r).bind (fun kp =>
          match kp.2 with
          | [] => none
          | c2 :: r2 =>
            if c2 = ':' then
              (parseValue f r2).bind (fun vp =>
                match vp.2 with
                | [] => none
                | c3 :: r3 =>
                  if c3 = '}' then some (.cons kp.1 vp.1 .nil, r3)
                  else if c3 = ',' then
                    (parseFields f r3).map (fun q => (.cons kp.1 vp.1 q.1, q.2))
                  else none)
            else none)
      else none

end

/-- Whole-string parse, as `JSON.parse` (main.ts:84, 233): the input must be
consumed entirely.  The fuel `s.length + 1` always suffices because every
recursive descent step consumes at least one character. -/
def parseJson (s : List Char) : Option Json :=
  match parseValue (s.length + 1) s with
  | some (v, []) => some v
  | _ => none

/-! ### JavaScript property access on a parsed value

`json.event` / `json.data` (main.ts:85, 234): a missing property, or access
on a non-object, yields `undefined`, modelled as `none`.  `JSON.parse`
assigns duplicate keys in order, so the last occurrence wins. -/

def findField : JsonFields → List Char → Option Json
  | .nil, _ => none
  | .cons k v tl, key =>
    match findField tl key with
    | some v2 => some v2
    | none => if k = key then some v else none

def getField : Json → List Char → Option Json
  | .jobj fs, key => findField fs key
  | _, _ => none

def eventKey : List Char := "event".data

def dataKey : List Char := "data".data

/-! ### The `'data'` handler shared by both roles (main.ts:78-92, 227-241)

Its observable behaviour is the ordered trace of calls it makes:
`emitter.emit(json.event, json.data)` per parsed packet, and `onError`
with a `RECEIVE_ERROR` when a parse throws.  The whole packet loop runs
inside one `try`, so the first parse failure reports a single error and
abandons the remaining packets of the chunk. -/

inductive Output where
  | emitted : Option Json → Option Json → Output
  | receiveError : Output

def processPackets : List (List Char) → List Output
  | [] => []
  | p :: rest =>
    if p = [] then processPackets rest
    else
      match parseJson p with
      | some j => .emitted (getField j eventKey) (getField j dataKey) :: processPackets rest
      | none => [.receiveError]

def handleData (chunk : List Char) : List Output :=
  processPackets (splitPackets chunk)

def isEmit : Output → Bool
  | .emitted _ _ => true
  | .receiveError => false

def countEmits (os : List Output) : Nat := os.countP isEmit

def countErrors (os : List Output) : Nat := os.countP (fun o => !isEmit o)

/-! ### The outbound encoding (main.ts:124, 265)

`JSON.stringify({ event, data }) + PACKET_DELIMITER`.  A JavaScript object
literal keeps insertion order (`event` before `data`), and
`JSON.stringify` omits a property whose value is `undefined`, so an
`emit` with no data argument produces a one-field object. -/

def envelope (e : List Char) (d : Option Json) : Json :=
  .jobj (.cons eventKey (.jstr e)
    (match d with
     | some v => .cons dataKey v .nil
     | none => .nil))

def encodeBody (e : List Char) (d : Option Json) : List Char :=
  stringifyVal (envelope e d)

def encodeFrame (e : List Char) (d : Option Json) : List Char :=
  encodeBody e d ++ PACKET_DELIMITER

/-- No occurrence of `PACKET_DELIMITER` in `s`: the soft invariant the
delimiter-based framing relies on. -/
def delimFree (s : List Char) : Prop := findSplit s = none

/-! ### Socket write-readiness (main.ts:14-16) -/

inductive ReadyState where
  | opening : ReadyState
  | rsOpen : ReadyState
  | readOnly : ReadyState
  | writeOnly : ReadyState
deriving DecidableEq

/-- `readyState === 'open' || readyState === 'writeOnly'` — `rsOpen` models
the source's `'open'` state (a Lean keyword). -/
def writableB (st : ReadyState) : Bool :=
  st == .rsOpen || st == .writeOnly

inductive PipeErrorKind where
  | sendError : PipeErrorKind
  | serverError : PipeErrorKind
  | socketError : PipeErrorKind
deriving DecidableEq

/-! ### `Server.emit` (main.ts:121-131)

The clients are iterated in insertion order; a writable client is written
the encoded frame, a non-writable one makes the method throw a
`SEND_ERROR`, which aborts the loop.  The result is the ordered list of
`(client id, bytes)` writes actually issued and the error thrown, if any. -/

structure SocketM where
  id : Nat
  readyState : ReadyState
deriving DecidableEq

def serverEmitLoop (frame : List Char) : List SocketM → List (Nat × List Char) × Option PipeErrorKind
  | [] => ([], none)
  | c :: rest =>
    if writableB c.readyState then
      let r := serverEmitLoop frame rest
      ((c.id, frame) :: r.1, r.2)
    else ([], some .sendError)

def serverEmit (e : List Char) (d : Option Json) (clients : List SocketM) :
    List (Nat × List Char) × Option PipeErrorKind :=
  serverEmitLoop (encodeFrame e d) clients

/-! ### `Client.emit` (main.ts:260-271) -/

def clientEmit (st : ReadyState) (e : List Char) (d : Option Json) :
    Option (List Char) × Option PipeErrorKind :=
  if writableB st then (some (encodeFrame e d), none)
  else (none, some .sendError)

/-! ### The connection set (main.ts:75-105, 110-112)

`onConnection` does `clients.add(client)` before invoking `onConnect`;
the `'close'` handler does `clients.delete(client)` before invoking
`onDisconnect`.  `runSrv` replays a sequence of those lifecycle events and
records, per callback invocation, the value `clientCount()` returns at
that moment. -/

inductive SrvEvent where
  | connect : Nat → SrvEvent
  | disconnect : Nat → SrvEvent
deriving DecidableEq

def addClient (cur : List Nat) (id : Nat) : List Nat :=
  if id ∈ cur then cur else cur ++ [id]

def runSrv : List Nat → List SrvEvent → List Nat × List (Bool × Nat)
  | cur, [] => (cur, [])
  | cur, .connect id :: es =>
    let cur2 := addClient cur id
    let r := runSrv cur2 es
    (r.1, (true, cur2.length) :: r.2)
  | cur, .disconnect id :: es =>
    let cur2 := cur.erase id
    let r := runSrv cur2 es
    (r.1, (false, cur2.length) :: r.2)

/-- Well-formed lifecycle histories: the transport hands `onConnection` a
fresh socket per connection, and fires `'close'` once, for a socket that
connected and has not yet closed. -/
def wfEvents : List Nat → List SrvEvent → Bool
  | _, [] => true
  | cur, .connect id :: es => !(cur.contains id) && wfEvents (cur ++ [id]) es
  | cur, .disconnect id :: es => cur.contains id && wfEvents (cur.erase id) es

/-- The number of currently-open connections, tracked from the history
alone: up one at a connect, down one at a disconnect. -/
def expectedObs : Nat → List SrvEvent → List (Bool × Nat)
  | _, [] => []
  | n, .connect _ :: es => (true, n + 1) :: expectedObs (n + 1) es
  | n, .disconnect _ :: es => (false, n - 1) :: expectedObs (n - 1) es

def countOpen : Nat → List SrvEvent → Nat
  | n, [] => n
  | n, .connect _ :: es => countOpen (n + 1) es
  | n, .disconnect _ :: es => countOpen (n - 1) es

/-! ### `Server.close` (main.ts:163-182)

`close` clears the dispatcher registry, ends and forgets every client,
strips the net server's listeners and then closes it, resolving or
rejecting on the callback's error.  Node's `net.Server.close` invokes its
callback with `ERR_SERVER_NOT_RUNNING` when the server is not open, which
is the case on a second `close`; note main.ts:174-180 rejects on that
error. -/

inductive CloseError where
  | notRunning : CloseError
deriving DecidableEq

structure ServerState where
  handlers : List Nat
  clients : List Nat
  listening : Bool
deriving DecidableEq

def serverClose (s : ServerState) : ServerState × Option CloseError :=
  (⟨[], [], false⟩, if s.listening then none else some .notRunning)

/-! ### Constructor validation (main.ts:48-50, 211-213) and async errors

`typeof options.onError !== 'function'` throws a `TypeError`
synchronously; this test is the constructors' only eager validation.  A
failure of the asynchronous transport setup (`listen` for the server,
`connect` for the client) is instead delivered through the `'error'`
listener, tagged `SERVER_ERROR` (main.ts:64-67) resp. `SOCKET_ERROR`
(main.ts:243-246). -/

inductive JsVal where
  | jsFunction : JsVal
  | jsOther : JsVal
deriving DecidableEq

structure CtorOptions where
  onError : Option JsVal
deriving DecidableEq

inductive CtorError where
  | typeError : CtorError
deriving DecidableEq

def isFunctionV : Option JsVal → Bool
  | some .jsFunction => true
  | _ => false

structure EndpointInit where
  path : List Char
  asyncErrors : List PipeErrorKind
deriving DecidableEq

/-- `Server.pipeName` (main.ts:59): the template literal
`\\\\.\\pipe\\$\x7bpipeName\x7d` denotes the text `\\.\pipe\` followed by
the name, with no platform conditional. -/
def serverPipePath (name : List Char) : List Char :=
  "\\\\.\\pipe\\".data ++ name

/-- `Client.pipeName` (main.ts:221): same unconditional prefix. -/
def clientPipePath (name : List Char) : List Char :=
  "\\\\.\\pipe\\".data ++ name

def serverConstruct (name : List Char) (o : CtorOptions) (bindFails : Bool) :
    Except CtorError EndpointInit :=
  if isFunctionV o.onError then
    .ok ⟨serverPipePath name, if bindFails then [.serverError] else []⟩
  else .error .typeError

def clientConstruct (name : List Char) (o : CtorOptions) (connectFails : Bool) :
    Except CtorError EndpointInit :=
  if isFunctionV o.onError then
    .ok ⟨clientPipePath name, if connectFails then [.socketError] else []⟩
  else .error .typeError

/-! ### Concrete protocol data for executable checks -/

def greetE : List Char := "greet".data

def hiJson : Json := .jstr "hi".data

def greetBody : List Char := encodeBody greetE (some hiJson)

def greetFrame : List Char := encodeFrame greetE (some hiJson)

/-- The frame for `("greet", "hi")` delivered as two successive chunks cut
at byte offset `k`.  The handler keeps no state between chunks — main.ts:78-92
is a function of the received `buffer` alone — so the two-chunk trace is the
concatenation of the two single-chunk traces. -/
def splitDelivery (k : Nat) : List Output :=
  handleData (greetFrame.take k) ++ handleData (greetFrame.drop k)

/-- Two clients: a not-yet-writable one first, then a writable one. -/
def cexClients : List SocketM := [⟨0, .opening⟩, ⟨1, .rsOpen⟩]

/-- A listening server with a handler registration and two live clients. -/
def closedCexInit : ServerState := ⟨[7], [3, 4], true⟩

/-- `n` copies of the delimiter, the all-delimiter chunk of claim C9. -/
def delimRep : Nat → List Char
  | 0 => []
  | n + 1 => PACKET_DELIMITER ++ delimRep n

/-! ### Auxiliary measures and predicates for the parser proofs -/

/-- The remainder does not begin with a decimal digit, so a numeral before
it parses to exactly the intended digits. -/
def noDigitHead : List Char → Bool
  | [] => true
  | c :: _ => !c.isDigit

/-- The characters a serialised JSON value can begin with. -/
def jsonStart (c : Char) : Bool :=
  c = 'n' || c = 't' || c = 'f' || c = '"' || c = '[' || c = '{' || c = '-' || c.isDigit

mutual

def sizeV : Json → Nat
  | .jnull => 1
  | .jbool _ => 1
  | .jnum _ => 1
  | .jstr _ => 1
  | .jarr l => sizeL l + 1
  | .jobj fs => sizeF fs + 1

def sizeL : JsonList → Nat
  | .nil => 0
  | .cons v tl => sizeV v + sizeL tl + 1

def sizeF : JsonFields → Nat
  | .nil => 0
  | .cons _ v tl => sizeV v + sizeF tl + 1

end

/-! ## Lemmas: splitting on the delimiter -/

theorem delim_ne_nil : PACKET_DELIMITER ≠ [] := by decide

theorem delim_length_pos : 0 < PACKET_DELIMITER.length := by decide

/-- The delimiter has no nontrivial border: no proper nonempty suffix of it
is also a prefix of it.  Hence an occurrence of the delimiter cannot
straddle the boundary between a delimiter-free block and a following
delimiter. -/
theorem delim_no_border :
    ∀ m, m < PACKET_DELIMITER.length → 0 < m →
      PACKET_DELIMITER.drop m ≠ PACKET_DELIMITER.take (PACKET_DELIMITER.length - m) := by
  decide

theorem findSplit_cons (c : Char) (cs : List Char) :
    findSplit (c :: cs) =
      if PACKET_DELIMITER.isPrefixOf (c :: cs) then
        some ([], List.drop PACKET_DELIMITER.length (c :: cs))
      else
        match findSplit cs with
        | some (b, a) => some (c :: b, a)
        | none => none := rfl

theorem findSplit_eq_none_cons {c : Char} {cs : List Char} :
    findSplit (c :: cs) = none ↔
      PACKET_DELIMITER.isPrefixOf (c :: cs) = false ∧ findSplit cs = none := by
  rw [findSplit_cons]
  constructor
  · intro h
    cases hp : PACKET_DELIMITER.isPrefixOf (c :: cs)
    · refine ⟨rfl, ?_⟩
      rcases hf : findSplit cs with _ | ⟨b, a⟩
      · rfl
      · simp [hp, hf] at h
    · simp [hp] at h
  · rintro ⟨h1, h2⟩
    simp [h1, h2]

/-- A delimiter-free nonempty block followed by the delimiter cannot begin
with the delimiter: since the delimiter has no nontrivial border, no
occurrence straddles the block boundary. -/
theorem not_prefix_extend (b rest : List Char) (hb : PACKET_DELIMITER.isPrefixOf b = false)
    (hne : b ≠ []) :
    PACKET_DELIMITER.isPrefixOf (b ++ PACKET_DELIMITER ++ rest) = false := by
  cases hp : PACKET_DELIMITER.isPrefixOf (b ++ PACKET_DELIMITER ++ rest)
  · rfl
  · exfalso
    have hpre : PACKET_DELIMITER <+: (b ++ PACKET_DELIMITER ++ rest) :=
      List.isPrefixOf_iff_prefix.mp hp
    have htake : PACKET_DELIMITER =
        (b ++ PACKET_DELIMITER ++ rest).take PACKET_DELIMITER.length :=
      List.prefix_iff_eq_take.mp hpre
    by_cases hlen : PACKET_DELIMITER.length ≤ b.length
    · have h1 : PACKET_DELIMITER = b.take PACKET_DELIMITER.length := by
        rw [List.append_assoc, List.take_append_eq_append_take,
          Nat.sub_eq_zero_of_le hlen, List.take_zero, List.append_nil] at htake
        exact htake
      have h2 : PACKET_DELIMITER <+: b := h1 ▸ List.take_prefix _ _
      have h3 := List.isPrefixOf_iff_prefix.mpr h2
      rw [hb] at h3
      exact Bool.false_ne_true h3
    · push_neg at hlen
      have hm0 : 0 < b.length := List.length_pos.mpr hne
      have hdrop : PACKET_DELIMITER.drop b.length =
          PACKET_DELIMITER.take (PACKET_DELIMITER.length - b.length) := by
        have h4 := congrArg (List.drop b.length) htake
        rw [List.drop_take, List.append_assoc, List.drop_left] at h4
        rw [List.take_append_of_le_length (by omega)] at h4
        exact h4
      exact delim_no_border b.length hlen hm0 hdrop

theorem findSplit_append (b rest : List Char) (hb : findSplit b = none) :
    findSplit (b ++ PACKET_DELIMITER ++ rest) = some (b, rest) := by
  induction b with
  | nil =>
    obtain ⟨d, ds, hd⟩ : ∃ d ds, PACKET_DELIMITER = d :: ds := by
      rcases h : PACKET_DELIMITER with _ | ⟨d, ds⟩
      · exact absurd h delim_ne_nil
      · exact ⟨d, ds, rfl⟩
    simp only [List.nil_append]
    conv_lhs => rw [hd, List.cons_append, findSplit_cons, ← List.cons_append, ← hd]
    have hp : PACKET_DELIMITER.isPrefixOf (PACKET_DELIMITER ++ rest) = true := by
      rw [List.isPrefixOf_iff_prefix]
      exact List.prefix_append _ _
    rw [hp]
    simp [List.drop_left]
  | cons c b ih =>
    rw [findSplit_eq_none_cons] at hb
    have hnp := not_prefix_extend (c :: b) rest hb.1 (by simp)
    rw [List.cons_append, List.cons_append, findSplit_cons]
    rw [← List.cons_append, ← List.cons_append, hnp]
    simp only [Bool.false_eq_true, if_false]
    rw [ih hb.2]

theorem findSplit_shrink :
    ∀ (s b a : List Char), findSplit s = some (b, a) → a.length < s.length := by
  intro s
  induction s with
  | nil => intro b a h; simp [findSplit] at h
  | cons c cs ih =>
    intro b a h
    cases hp : PACKET_DELIMITER.isPrefixOf (c :: cs) with
    | true =>
      have hc : findSplit (c :: cs)
          = some ([], List.drop PACKET_DELIMITER.length (c :: cs)) := by
        rw [findSplit_cons, hp]
        simp
      rw [hc] at h
      injection h with h1
      have ha : a = List.drop PACKET_DELIMITER.length (c :: cs) := congrArg Prod.snd h1.symm
      have := delim_length_pos
      subst ha
      simp only [List.length_drop, List.length_cons]
      omega
    | false =>
      cases hf : findSplit cs with
      | none =>
        have hc : findSplit (c :: cs) = none := by
          rw [findSplit_cons, hp]
          simp [hf]
        rw [hc] at h
        exact absurd h (by simp)
      | some p =>
        obtain ⟨b2, a2⟩ := p
        have hc : findSplit (c :: cs) = some (c :: b2, a2) := by
          rw [findSplit_cons, hp]
          simp [hf]
        rw [hc] at h
        injection h with h1
        have ha : a = a2 := congrArg Prod.snd h1.symm
        have h2 := ih b2 a2 hf
        rw [ha]
        simp only [List.length_cons]
        omega

theorem splitLoop_fuel :
    ∀ (n f1 f2 : Nat) (s : List Char), s.length ≤ n → s.length < f1 → s.length < f2 →
      splitLoop f1 s = splitLoop f2 s := by
  intro n
  induction n with
  | zero =>
    intro f1 f2 s hs h1 h2
    obtain ⟨g1, rfl⟩ : ∃ g, f1 = g + 1 := ⟨f1 - 1, by omega⟩
    obtain ⟨g2, rfl⟩ : ∃ g, f2 = g + 1 := ⟨f2 - 1, by omega⟩
    have : s = [] := List.length_eq_zero.mp (by omega)
    subst this
    rfl
  | succ n ih =>
    intro f1 f2 s hs h1 h2
    obtain ⟨g1, rfl⟩ : ∃ g, f1 = g + 1 := ⟨f1 - 1, by omega⟩
    obtain ⟨g2, rfl⟩ : ∃ g, f2 = g + 1 := ⟨f2 - 1, by omega⟩
    rcases hf : findSplit s with _ | ⟨b, a⟩
    · simp only [splitLoop, hf]
    · have hlt := findSplit_shrink s b a hf
      have heq := ih g1 g2 a (by omega) (by omega) (by omega)
      simp only [splitLoop, hf, heq]

theorem splitPackets_append (b rest : List Char) (hb : findSplit b = none) :
    splitPackets (b ++ PACKET_DELIMITER ++ rest) = b :: splitPackets rest := by
  have h1 : splitPackets (b ++ PACKET_DELIMITER ++ rest)
      = b :: splitLoop (b ++ PACKET_DELIMITER ++ rest).length rest := by
    unfold splitPackets
    simp only [splitLoop, findSplit_append b rest hb]
  rw [h1]
  have hlen : (b ++ PACKET_DELIMITER ++ rest).length
      = b.length + (PACKET_DELIMITER.length + rest.length) := by
    simp [List.length_append]
  have := delim_length_pos
  have h2 : splitLoop (b ++ PACKET_DELIMITER ++ rest).length rest
      = splitLoop (rest.length + 1) rest :=
    splitLoop_fuel rest.length _ _ rest (le_refl _) (by omega) (by omega)
  rw [h2]
  rfl

theorem splitPackets_nodelim (b : List Char) (hb : findSplit b = none) :
    splitPackets b = [b] := by
  unfold splitPackets
  simp only [splitLoop, hb]

/-! ## Lemmas: decimal numerals -/

theorem digitsToNat_append (ds : List Char) (c : Char) :
    digitsToNat (ds ++ [c]) = 10 * digitsToNat ds + (c.toNat - 48) := by
  unfold digitsToNat
  rw [List.foldl_append]
  simp [Nat.mul_comm]

theorem digitChar_isDigit (m : Nat) (h : m < 10) : (Nat.digitChar m).isDigit = true := by
  have : ∀ k < 10, (Nat.digitChar k).isDigit = true := by decide
  exact this m h

theorem digitChar_toNat (m : Nat) (h : m < 10) : (Nat.digitChar m).toNat - 48 = m := by
  have : ∀ k < 10, (Nat.digitChar k).toNat - 48 = k := by decide
  exact this m h

theorem digitChar_ne_zero (m : Nat) (h1 : 1 ≤ m) (h2 : m < 10) : Nat.digitChar m ≠ '0' := by
  have : ∀ k < 10, 1 ≤ k → Nat.digitChar k ≠ '0' := by decide
  exact this m h2 h1

theorem natToCharsAux_ne_nil : ∀ (f n : Nat), n < f → natToCharsAux f n ≠ [] := by
  intro f
  induction f with
  | zero => intro n h; omega
  | succ f ih =>
    intro n h
    by_cases h10 : n < 10
    · simp [natToCharsAux, h10]
    · simp only [natToCharsAux, h10, if_false]
      simp

theorem natToCharsAux_digits :
    ∀ (f n : Nat), n < f → ∀ c ∈ natToCharsAux f n, c.isDigit = true := by
  intro f
  induction f with
  | zero => intro n h; omega
  | succ f ih =>
    intro n h c hc
    by_cases h10 : n < 10
    · simp only [natToCharsAux, h10, if_true, List.mem_singleton] at hc
      subst hc
      exact digitChar_isDigit n h10
    · simp only [natToCharsAux, h10, if_false, List.mem_append, List.mem_singleton] at hc
      rcases hc with hc | hc
      · exact ih (n / 10) (by omega) c hc
      · subst hc
        exact digitChar_isDigit _ (Nat.mod_lt _ (by omega))

theorem natToCharsAux_toNat :
    ∀ (f n : Nat), n < f → digitsToNat (natToCharsAux f n) = n := by
  intro f
  induction f with
  | zero => intro n h; omega
  | succ f ih =>
    intro n h
    by_cases h10 : n < 10
    · simp only [natToCharsAux, h10, if_true]
      show digitsToNat ([] ++ [Nat.digitChar n]) = n
      rw [digitsToNat_append, digitChar_toNat n h10]
      simp [digitsToNat]
    · simp only [natToCharsAux, h10, if_false]
      rw [digitsToNat_append, ih (n / 10) (by omega),
        digitChar_toNat _ (Nat.mod_lt _ (by omega))]
      omega

theorem natToCharsAux_head :
    ∀ (f n : Nat), n < f → 1 ≤ n → (natToCharsAux f n).head? ≠ some '0' := by
  intro f
  induction f with
  | zero => intro n h; omega
  | succ f ih =>
    intro n h h1
    by_cases h10 : n < 10
    · simp only [natToCharsAux, h10, if_true, List.head?_cons]
      intro he
      injection he with he
      exact digitChar_ne_zero n h1 h10 he
    · simp only [natToCharsAux, h10, if_false]
      obtain ⟨c, t, hct⟩ := List.exists_cons_of_ne_nil (natToCharsAux_ne_nil f (n / 10) (by omega))
      rw [hct, List.cons_append, List.head?_cons]
      have := ih (n / 10) (by omega) (by omega)
      rw [hct, List.head?_cons] at this
      exact this

theorem natToChars_ne_nil (n : Nat) : natToChars n ≠ [] :=
  natToCharsAux_ne_nil (n + 1) n (Nat.lt_succ_self n)

theorem natToChars_digits (n : Nat) : ∀ c ∈ natToChars n, c.isDigit = true :=
  natToCharsAux_digits (n + 1) n (Nat.lt_succ_self n)

theorem natToChars_toNat (n : Nat) : digitsToNat (natToChars n) = n :=
  natToCharsAux_toNat (n + 1) n (Nat.lt_succ_self n)

theorem natToChars_head (n : Nat) (h : 1 ≤ n) : (natToChars n).head? ≠ some '0' :=
  natToCharsAux_head (n + 1) n (Nat.lt_succ_self n) h

theorem takeDigits_append (ds r : List Char) (hds : ∀ c ∈ ds, c.isDigit = true)
    (hr : noDigitHead r = true) : takeDigits (ds ++ r) = (ds, r) := by
  induction ds with
  | nil =>
    simp only [List.nil_append]
    cases r with
    | nil => rfl
    | cons c r2 =>
      simp only [noDigitHead, Bool.not_eq_true'] at hr
      simp [takeDigits, hr]
  | cons d ds ih =>
    have hd : d.isDigit = true := hds d (List.mem_cons_self d ds)
    simp only [List.cons_append, takeDigits, hd, if_true, List.append_eq]
    rw [ih (fun c hc => hds c (List.mem_cons_of_mem d hc))]

theorem parseNatNum_natToChars (n : Nat) (r : List Char) (hr : noDigitHead r = true) :
    parseNatNum (natToChars n ++ r) = some (n, r) := by
  unfold parseNatNum
  rw [takeDigits_append (natToChars n) r (natToChars_digits n) hr]
  simp only
  rw [if_neg (natToChars_ne_nil n)]
  by_cases h0 : n = 0
  · subst h0
    have hz : natToChars 0 = ['0'] := by decide
    rw [hz]
    simp [digitsToNat]
  · rw [if_neg ?_]
    · rw [natToChars_toNat n]
    · rintro ⟨hh, _⟩
      exact natToChars_head n (by omega) hh

/-! ## Lemmas: string bodies -/

theorem parseStringBody_quote (r : List Char) : parseStringBody ('"' :: r) = some ([], r) := by
  rw [parseStringBody.eq_def]
  simp

theorem parseStringBody_escaped (c : Char) (r : List Char) (hc : c = '"' ∨ c = '\\') :
    parseStringBody ('\\' :: c :: r)
      = (parseStringBody r).map (fun p => (c :: p.1, p.2)) := by
  rw [parseStringBody.eq_def]
  simp [hc]

theorem parseStringBody_raw (c : Char) (r : List Char) (h1 : c ≠ '"') (h2 : c ≠ '\\') :
    parseStringBody (c :: r)
      = (parseStringBody r).map (fun p => (c :: p.1, p.2)) := by
  rw [parseStringBody.eq_def]
  simp [h1, h2]

/-! ## Lemmas: sizes and first characters of serialised values -/

theorem sizeV_pos (v : Json) : 1 ≤ sizeV v := by
  cases v <;> simp [sizeV]

theorem isDigit_not_special (c : Char) (h : c.isDigit = true) :
    c ≠ 'n' ∧ c ≠ 't' ∧ c ≠ 'f' ∧ c ≠ '"' ∧ c ≠ '[' ∧ c ≠ '{' ∧ c ≠ '-'
      ∧ c ≠ ']' ∧ c ≠ ',' ∧ c ≠ '}' ∧ c ≠ ':' := by
  refine ⟨?_, ?_, ?_, ?_, ?_, ?_, ?_, ?_, ?_, ?_, ?_⟩ <;>
    (rintro rfl; revert h; decide)

theorem jsonStart_not_close (c : Char) (h : jsonStart c = true) :
    c ≠ ']' ∧ c ≠ ',' ∧ c ≠ '}' := by
  simp only [jsonStart, Bool.or_eq_true, decide_eq_true_eq] at h
  rcases h with ((((((h | h) | h) | h) | h) | h) | h) | h
  · subst h; exact ⟨by decide, by decide, by decide⟩
  · subst h; exact ⟨by decide, by decide, by decide⟩
  · subst h; exact ⟨by decide, by decide, by decide⟩
  · subst h; exact ⟨by decide, by decide, by decide⟩
  · subst h; exact ⟨by decide, by decide, by decide⟩
  · subst h; exact ⟨by decide, by decide, by decide⟩
  · subst h; exact ⟨by decide, by decide, by decide⟩
  · have h2 := isDigit_not_special c h
    exact ⟨h2.2.2.2.2.2.2.2.1, h2.2.2.2.2.2.2.2.2.1, h2.2.2.2.2.2.2.2.2.2.1⟩

theorem stringify_head (v : Json) :
    ∃ c t, stringifyVal v = c :: t ∧ jsonStart c = true := by
  cases v with
  | jnull => exact ⟨'n', _, rfl, by decide⟩
  | jbool b =>
    cases b
    · exact ⟨'f', _, rfl, by decide⟩
    · exact ⟨'t', _, rfl, by decide⟩
  | jnum i =>
    by_cases hi : i < 0
    · refine ⟨'-', natToChars i.natAbs, ?_, by decide⟩
      simp [stringifyVal, intToChars, hi]
    · obtain ⟨c, t, hct⟩ := List.exists_cons_of_ne_nil (natToChars_ne_nil i.natAbs)
      have hd : c.isDigit = true := by
        have := natToChars_digits i.natAbs c
        rw [hct] at this
        exact this (List.mem_cons_self c t)
      refine ⟨c, t, ?_, by simp [jsonStart, hd]⟩
      simp [stringifyVal, intToChars, hi, hct]
  | jstr s => exact ⟨'"', _, rfl, by decide⟩
  | jarr l =>
    cases l
    · exact ⟨'[', _, rfl, by decide⟩
    · exact ⟨'[', _, rfl, by decide⟩
  | jobj fs =>
    cases fs
    · exact ⟨'{', _, rfl, by decide⟩
    · exact ⟨'{', _, rfl, by decide⟩

theorem parseStringBody_escape (s : List Char) :
    ∀ r : List Char, parseStringBody (escapeStr s ++ ('"' :: r)) = some (s, r) := by
  induction s with
  | nil =>
    intro r
    simp only [escapeStr, List.nil_append]
    exact parseStringBody_quote r
  | cons c s ih =>
    intro r
    by_cases hc : c = '"' ∨ c = '\\'
    · have hesc : escapeChar c = ['\\', c] := by simp [escapeChar, hc]
      simp only [escapeStr, hesc, List.cons_append, List.append_assoc, List.nil_append]
      rw [parseStringBody_escaped c _ hc, ih r]
      rfl
    · push_neg at hc
      have hesc : escapeChar c = [c] := by simp [escapeChar, hc.1, hc.2]
      simp only [escapeStr, hesc, List.cons_append, List.nil_append]
      rw [parseStringBody_raw c _ hc.1 hc.2, ih r]
      rfl

mutual

theorem sizeV_le_length : ∀ v : Json, sizeV v ≤ (stringifyVal v).length
  | .jnull => by simp [sizeV, stringifyVal]
  | .jbool b => by cases b <;> simp [sizeV, stringifyVal]
  | .jnum i => by
      have h : stringifyVal (.jnum i) ≠ [] := by
        simp only [stringifyVal, intToChars]
        split
        · simp
        · exact natToChars_ne_nil _
      have := List.length_pos.mpr h
      simp only [sizeV]
      omega
  | .jstr s => by simp [sizeV, stringifyVal]
  | .jarr .nil => by simp [sizeV, sizeL, stringifyVal]
  | .jarr (.cons v tl) => by
      have h1 := sizeV_le_length v
      have h2 := sizeL_succ_le_length tl
      simp only [sizeV, sizeL, stringifyVal, List.length_cons, List.length_append]
      omega
  | .jobj .nil => by simp [sizeV, sizeF, stringifyVal]
  | .jobj (.cons k v tl) => by
      have h1 := sizeV_le_length v
      have h2 := sizeF_succ_le_length tl
      simp only [sizeV, sizeF, stringifyVal, List.length_cons, List.length_append]
      omega

theorem sizeL_succ_le_length : ∀ l : JsonList, sizeL l + 1 ≤ (stringifyElems l).length
  | .nil => by simp [sizeL, stringifyElems]
  | .cons v tl => by
      have h1 := sizeV_le_length v
      have h2 := sizeL_succ_le_length tl
      simp only [sizeL, stringifyElems, List.length_cons, List.length_append]
      omega

theorem sizeF_succ_le_length : ∀ fs : JsonFields, sizeF fs + 1 ≤ (stringifyFields fs).length
  | .nil => by simp [sizeF, stringifyFields]
  | .cons k v tl => by
      have h1 := sizeV_le_length v
      have h2 := sizeF_succ_le_length tl
      simp only [sizeF, stringifyFields, List.length_cons, List.length_append]
      omega

end

/-! ## Lemmas: one step of the recursive-descent parser -/

theorem parseValue_n (f : Nat) (r : List Char) :
    parseValue (f + 1) ('n' :: r)
      = (expectChars ['u', 'l', 'l'] r).map (fun r2 => (.jnull, r2)) := by
  rw [parseValue.eq_def]
  simp

theorem parseValue_t (f : Nat) (r : List Char) :
    parseValue (f + 1) ('t' :: r)
      = (expectChars ['r', 'u', 'e'] r).map (fun r2 => (.jbool true, r2)) := by
  rw [parseValue.eq_def]
  simp

theorem parseValue_f (f : Nat) (r : List Char) :
    parseValue (f + 1) ('f' :: r)
      = (expectChars ['a', 'l', 's', 'e'] r).map (fun r2 => (.jbool false, r2)) := by
  rw [parseValue.eq_def]
  simp

theorem parseValue_quote (f : Nat) (r : List Char) :
    parseValue (f + 1) ('"' :: r)
      = (parseStringBody r).map (fun p => (.jstr p.1, p.2)) := by
  rw [parseValue.eq_def]
  simp

theorem parseValue_lbracket (f : Nat) (c2 : Char) (r2 : List Char) :
    parseValue (f + 1) ('[' :: c2 :: r2)
      = if c2 = ']' then some (.jarr .nil, r2)
        else (parseElems f (c2 :: r2)).map (fun p => (.jarr p.1, p.2)) := by
  rw [parseValue.eq_def]
  simp

theorem parseValue_lbrace (f : Nat) (c2 : Char) (r2 : List Char) :
    parseValue (f + 1) ('{' :: c2 :: r2)
      = if c2 = '}' then some (.jobj .nil, r2)
        else (parseFields f (c2 :: r2)).map (fun p => (.jobj p.1, p.2)) := by
  rw [parseValue.eq_def]
  simp

theorem parseValue_minus (f : Nat) (r : List Char) :
    parseValue (f + 1) ('-' :: r)
      = (parseNatNum r).map (fun p => (.jnum (-(p.1 : Int)), p.2)) := by
  rw [parseValue.eq_def]
  simp

theorem parseValue_digit (f : Nat) (c : Char) (r : List Char) (h : c.isDigit = true) :
    parseValue (f + 1) (c :: r)
      = (parseNatNum (c :: r)).map (fun p => (.jnum (p.1 : Int), p.2)) := by
  have hne := isDigit_not_special c h
  rw [parseValue.eq_def]
  simp only
  rw [if_neg hne.1, if_neg hne.2.1, if_neg hne.2.2.1, if_neg hne.2.2.2.1,
    if_neg hne.2.2.2.2.1, if_neg hne.2.2.2.2.2.1, if_neg hne.2.2.2.2.2.2.1, if_pos h]

theorem parseElems_succ (f : Nat) (s : List Char) :
    parseElems (f + 1) s
      = (parseValue f s).bind (fun p =>
          match p.2 with
          | [] => none
          | c :: r =>
            if c = ']' then some (.cons p.1 .nil, r)
            else if c = ',' then
              (parseElems f r).map (fun q => (.cons p.1 q.1, q.2))
            else none) := by
  rw [parseElems.eq_def]

theorem parseFields_quote (f : Nat) (r : List Char) :
    parseFields (f + 1) ('"' :: r)
      = (parseStringBody r).bind (fun kp =>
          match kp.2 with
          | [] => none
          | c2 :: r2 =>
            if c2 = ':' then
              (parseValue f r2).bind (fun vp =>
                match vp.2 with
                | [] => none
                | c3 :: r3 =>
                  if c3 = '}' then some (.cons kp.1 vp.1 .nil, r3)
                  else if c3 = ',' then
                    (parseFields f r3).map (fun q => (.cons kp.1 vp.1 q.1, q.2))
                  else none)
            else none) := by
  rw [parseFields.eq_def]
  simp

/-! ## The parser is complete for the serialiser -/

theorem parseComplete : ∀ f : Nat,
    (∀ (v : Json) (r : List Char), sizeV v < f → noDigitHead r = true →
      parseValue f (stringifyVal v ++ r) = some (v, r)) ∧
    (∀ (v : Json) (tl : JsonList) (r : List Char), sizeL (.cons v tl) < f →
      parseElems f (stringifyVal v ++ (stringifyElems tl ++ r)) = some (.cons v tl, r)) ∧
    (∀ (k : List Char) (v : Json) (tl : JsonFields) (r : List Char), sizeF (.cons k v tl) < f →
      parseFields f ('"' :: (escapeStr k ++ ('"' :: ':' :: (stringifyVal v ++ (stringifyFields tl ++ r)))))
        = some (.cons k v tl, r)) := by
  intro f
  induction f with
  | zero => refine ⟨?_, ?_, ?_⟩ <;> (intros; omega)
  | succ f ih =>
    obtain ⟨ihV, ihE, ihF⟩ := ih
    refine ⟨?_, ?_, ?_⟩
    · intro v r hs hr
      cases v with
      | jnull =>
        show parseValue (f + 1) ('n' :: (['u', 'l', 'l'] ++ r)) = _
        rw [parseValue_n]
        rfl
      | jbool b =>
        cases b
        · show parseValue (f + 1) ('f' :: (['a', 'l', 's', 'e'] ++ r)) = _
          rw [parseValue_f]
          rfl
        · show parseValue (f + 1) ('t' :: (['r', 'u', 'e'] ++ r)) = _
          rw [parseValue_t]
          rfl
      | jnum i =>
        by_cases hi : i < 0
        · have hshape : stringifyVal (.jnum i) ++ r = '-' :: (natToChars i.natAbs ++ r) := by
            simp [stringifyVal, intToChars, hi]
          rw [hshape, parseValue_minus, parseNatNum_natToChars _ _ hr]
          have hval : -(i.natAbs : Int) = i := by omega
          show some (Json.jnum (-(i.natAbs : Int)), r) = some (Json.jnum i, r)
          rw [hval]
        · obtain ⟨c, t, hct⟩ := List.exists_cons_of_ne_nil (natToChars_ne_nil i.natAbs)
          have hd : c.isDigit = true := by
            have hmem := natToChars_digits i.natAbs c
            rw [hct] at hmem
            exact hmem (List.mem_cons_self c t)
          have hsv : stringifyVal (.jnum i) = natToChars i.natAbs := by
            simp [stringifyVal, intToChars, hi]
          rw [hsv, hct, List.cons_append, parseValue_digit f c _ hd, ← List.cons_append,
            ← hct, parseNatNum_natToChars _ _ hr]
          have hval : (i.natAbs : Int) = i := by omega
          show some (Json.jnum (i.natAbs : Int), r) = some (Json.jnum i, r)
          rw [hval]
      | jstr s =>
        have hshape : stringifyVal (.jstr s) ++ r = '"' :: (escapeStr s ++ ('"' :: r)) := by
          simp [stringifyVal]
        rw [hshape, parseValue_quote, parseStringBody_escape]
        rfl
      | jarr l =>
        cases l with
        | nil =>
          show parseValue (f + 1) ('[' :: ']' :: r) = _
          rw [parseValue_lbracket]
          simp
        | cons v tl =>
          obtain ⟨c0, t0, hct, hstart⟩ := stringify_head v
          have hne : c0 ≠ ']' := (jsonStart_not_close c0 hstart).1
          have hshape : stringifyVal (.jarr (.cons v tl)) ++ r
              = '[' :: c0 :: (t0 ++ (stringifyElems tl ++ r)) := by
            simp [stringifyVal, hct]
          rw [hshape, parseValue_lbracket, if_neg hne]
          have hback : c0 :: (t0 ++ (stringifyElems tl ++ r))
              = stringifyVal v ++ (stringifyElems tl ++ r) := by
            rw [hct]
            simp
          rw [hback]
          have hsz : sizeL (.cons v tl) < f := by
            simp only [sizeV] at hs
            omega
          rw [ihE v tl r hsz]
          rfl
      | jobj fs =>
        cases fs with
        | nil =>
          show parseValue (f + 1) ('{' :: '}' :: r) = _
          rw [parseValue_lbrace]
          simp
        | cons k v tl =>
          have hshape : stringifyVal (.jobj (.cons k v tl)) ++ r
              = '{' :: '"' :: (escapeStr k ++ ('"' :: ':' :: (stringifyVal v ++ (stringifyFields tl ++ r)))) := by
            simp [stringifyVal]
          rw [hshape, parseValue_lbrace, if_neg (by decide : ('"' : Char) ≠ '}')]
          have hsz : sizeF (.cons k v tl) < f := by
            simp only [sizeV] at hs
            omega
          rw [ihF k v tl r hsz]
          rfl
    · intro v tl r hs
      have h1 : sizeV v < f := by
        simp only [sizeL] at hs
        omega
      have hr2 : noDigitHead (stringifyElems tl ++ r) = true := by
        cases tl <;> rfl
      rw [parseElems_succ, ihV v _ h1 hr2]
      cases tl with
      | nil =>
        show (some ((v : Json), ']' :: r)).bind _ = _
        simp
      | cons v2 tl2 =>
        have hshape : stringifyElems (.cons v2 tl2) ++ r
            = ',' :: (stringifyVal v2 ++ (stringifyElems tl2 ++ r)) := by
          simp [stringifyElems]
        rw [hshape]
        have hsz : sizeL (.cons v2 tl2) < f := by
          simp only [sizeL] at hs ⊢
          have := sizeV_pos v
          omega
        simp only [Option.some_bind]
        rw [ihE v2 tl2 r hsz]
        simp
    · intro k v tl r hs
      rw [parseFields_quote, parseStringBody_escape]
      have h1 : sizeV v < f := by
        simp only [sizeF] at hs
        omega
      have hr2 : noDigitHead (stringifyFields tl ++ r) = true := by
        cases tl <;> rfl
      simp only [Option.some_bind, if_true]
      rw [ihV v _ h1 hr2]
      cases tl with
      | nil =>
        show (some ((v : Json), '}' :: r)).bind _ = _
        simp
      | cons k2 v2 tl2 =>
        have hshape : stringifyFields (.cons k2 v2 tl2) ++ r
            = ',' :: '"' :: (escapeStr k2 ++ ('"' :: ':' :: (stringifyVal v2 ++ (stringifyFields tl2 ++ r)))) := by
          simp [stringifyFields]
        rw [hshape]
        have hsz : sizeF (.cons k2 v2 tl2) < f := by
          simp only [sizeF] at hs ⊢
          have := sizeV_pos v
          omega
        simp only [Option.some_bind]
        rw [ihF k2 v2 tl2 r hsz]
        simp

theorem parseValue_stringify (f : Nat) (v : Json) (r : List Char) (hf : sizeV v < f)
    (hr : noDigitHead r = true) : parseValue f (stringifyVal v ++ r) = some (v, r) :=
  (parseComplete f).1 v r hf hr

/-- Round-trip: the parser recovers exactly what the serialiser produced. -/
theorem parseJson_stringify (v : Json) : parseJson (stringifyVal v) = some v := by
  unfold parseJson
  have h1 : sizeV v < (stringifyVal v).length + 1 :=
    Nat.lt_succ_of_le (sizeV_le_length v)
  have h2 := parseValue_stringify ((stringifyVal v).length + 1) v [] h1 rfl
  rw [List.append_nil] at h2
  rw [h2]

/-! ## Lemmas: the envelope object -/

theorem eventKey_ne_dataKey : eventKey ≠ dataKey := by decide

theorem dataKey_ne_eventKey : dataKey ≠ eventKey := by decide

theorem getField_envelope_event (e : List Char) (d : Option Json) :
    getField (envelope e d) eventKey = some (.jstr e) := by
  cases d with
  | none => simp [envelope, getField, findField]
  | some v => simp [envelope, getField, findField, dataKey_ne_eventKey]

theorem getField_envelope_data (e : List Char) (d : Option Json) :
    getField (envelope e d) dataKey = d := by
  cases d with
  | none => simp [envelope, getField, findField, eventKey_ne_dataKey]
  | some v => simp [envelope, getField, findField]

theorem encodeBody_ne_nil (e : List Char) (d : Option Json) : encodeBody e d ≠ [] := by
  obtain ⟨c, t, hct, _⟩ := stringify_head (envelope e d)
  unfold encodeBody
  rw [hct]
  simp

theorem parseJson_encodeBody (e : List Char) (d : Option Json) :
    parseJson (encodeBody e d) = some (envelope e d) :=
  parseJson_stringify (envelope e d)

/-! ## Lemmas: the data handler -/

theorem processPackets_nil_piece (rest : List (List Char)) :
    processPackets ([] :: rest) = processPackets rest := by
  simp [processPackets]

theorem processPackets_body (e : List Char) (d : Option Json) (rest : List (List Char)) :
    processPackets (encodeBody e d :: rest)
      = .emitted (some (.jstr e)) d :: processPackets rest := by
  rw [processPackets.eq_def]
  simp only
  rw [if_neg (encodeBody_ne_nil e d), parseJson_encodeBody]
  simp only
  rw [getField_envelope_event, getField_envelope_data]

theorem processPackets_malformed (p : List Char) (rest : List (List Char))
    (hne : p ≠ []) (hp : parseJson p = none) :
    processPackets (p :: rest) = [.receiveError] := by
  rw [processPackets.eq_def]
  simp only
  rw [if_neg hne, hp]

theorem handleData_nil : handleData [] = [] := rfl

/-- A chunk holding exactly one whole frame dispatches exactly its event:
the empty trailing piece after the delimiter is skipped. -/
theorem handleData_frame (e : List Char) (d : Option Json)
    (hfree : delimFree (encodeBody e d)) :
    handleData (encodeFrame e d) = [.emitted (some (.jstr e)) d] := by
  unfold handleData encodeFrame
  rw [show encodeBody e d ++ PACKET_DELIMITER
      = encodeBody e d ++ PACKET_DELIMITER ++ [] by simp]
  rw [splitPackets_append _ _ hfree, processPackets_body]
  rfl

/-- Two frames concatenated in one chunk dispatch both events, in order. -/
theorem handleData_two_frames (e1 : List Char) (d1 : Option Json) (e2 : List Char)
    (d2 : Option Json) (h1 : delimFree (encodeBody e1 d1)) (h2 : delimFree (encodeBody e2 d2)) :
    handleData (encodeFrame e1 d1 ++ encodeFrame e2 d2)
      = [.emitted (some (.jstr e1)) d1, .emitted (some (.jstr e2)) d2] := by
  unfold handleData encodeFrame
  rw [show encodeBody e1 d1 ++ PACKET_DELIMITER ++ (encodeBody e2 d2 ++ PACKET_DELIMITER)
      = encodeBody e1 d1 ++ PACKET_DELIMITER ++ (encodeBody e2 d2 ++ PACKET_DELIMITER ++ []) by simp]
  rw [splitPackets_append _ _ h1, splitPackets_append _ _ h2]
  rw [processPackets_body, processPackets_body]
  rfl

/-- A malformed candidate between two well-formed frames: the candidates
before it are dispatched, the failure reports one `RECEIVE_ERROR`, and the
well-formed frame after it is abandoned with the rest of the chunk. -/
theorem handleData_malformed_mid (e1 : List Char) (d1 : Option Json) (e2 : List Char)
    (d2 : Option Json) (h1 : delimFree (encodeBody e1 d1)) :
    handleData (encodeFrame e1 d1 ++ ('{' :: PACKET_DELIMITER) ++ encodeFrame e2 d2)
      = [.emitted (some (.jstr e1)) d1, .receiveError] := by
  unfold handleData encodeFrame
  rw [show encodeBody e1 d1 ++ PACKET_DELIMITER ++ ('{' :: PACKET_DELIMITER)
        ++ (encodeBody e2 d2 ++ PACKET_DELIMITER)
      = encodeBody e1 d1 ++ PACKET_DELIMITER
        ++ (['{'] ++ PACKET_DELIMITER ++ (encodeBody e2 d2 ++ PACKET_DELIMITER)) by simp]
  rw [splitPackets_append _ _ h1, splitPackets_append _ _ (by decide)]
  rw [processPackets_body, processPackets_malformed ['{'] _ (by simp) (by rfl)]

/-- A chunk of only delimiter bytes yields no output at all. -/
theorem handleData_delimRep (n : Nat) : handleData (delimRep n) = [] := by
  induction n with
  | zero => rfl
  | succ n ih =>
    unfold handleData
    rw [show delimRep (n + 1) = [] ++ PACKET_DELIMITER ++ delimRep n from rfl]
    rw [splitPackets_append _ _ (by decide), processPackets_nil_piece]
    exact ih

/-! ## Lemmas: the emit loops and the connection set -/

/-- `Server.emit` writes to the longest all-writable prefix of the client
set and throws at the first non-writable client, aborting the iteration. -/
theorem serverEmitLoop_spec (frame : List Char) (clients : List SocketM) :
    serverEmitLoop frame clients
      = ((clients.takeWhile (fun c => writableB c.readyState)).map (fun c => (c.id, frame)),
         if clients.all (fun c => writableB c.readyState) then none else some .sendError) := by
  induction clients with
  | nil => rfl
  | cons c rest ih =>
    by_cases hc : writableB c.readyState
    · simp [serverEmitLoop, hc, ih, List.takeWhile_cons, List.all_cons]
    · simp [serverEmitLoop, hc, List.takeWhile_cons, List.all_cons]

theorem runSrv_spec : ∀ (es : List SrvEvent) (cur : List Nat), wfEvents cur es = true →
    (runSrv cur es).2 = expectedObs cur.length es
      ∧ (runSrv cur es).1.length = countOpen cur.length es := by
  intro es
  induction es with
  | nil => intro cur _; exact ⟨rfl, rfl⟩
  | cons e es ih =>
    intro cur h
    cases e with
    | connect id =>
      simp only [wfEvents, Bool.and_eq_true, Bool.not_eq_true'] at h
      have hmem : id ∉ cur := by
        intro hin
        have hc : cur.contains id = true := by simpa using hin
        rw [hc] at h
        exact Bool.false_ne_true h.1.symm
      have hadd : addClient cur id = cur ++ [id] := by simp [addClient, hmem]
      obtain ⟨h1, h2⟩ := ih (cur ++ [id]) h.2
      simp only [runSrv, hadd]
      refine ⟨?_, ?_⟩
      · simp only [expectedObs, h1, List.length_append, List.length_cons, List.length_nil]
      · simp only [countOpen, h2, List.length_append, List.length_cons, List.length_nil]
    | disconnect id =>
      simp only [wfEvents, Bool.and_eq_true] at h
      have hmem : id ∈ cur := by
        have hc := h.1
        simpa using hc
      have hlen : (cur.erase id).length = cur.length - 1 :=
        List.length_erase_of_mem hmem
      obtain ⟨h1, h2⟩ := ih (cur.erase id) h.2
      simp only [runSrv]
      refine ⟨?_, ?_⟩
      · simp only [expectedObs, h1, hlen]
      · simp only [countOpen, h2, hlen]

/-! ## The claims -/

set_option maxRecDepth 4000

/-- C1: the claim asserts that splitting a valid encoded frame's bytes at
any arbitrary offset into two delivered chunks yields the same decoded
event, dispatched exactly once, the piece after the last delimiter being
kept as leftover and prepended to the next chunk.  Counterexample: cutting
the frame for `("greet", "hi")` at offset 5 dispatches no event at all and
reports two receive errors, while one-chunk delivery dispatches exactly
one event and no error — the handler keeps no leftover between chunks. -/
theorem frameSplit_cex :
    countEmits (splitDelivery 5) = 0 ∧ countErrors (splitDelivery 5) = 2
      ∧ countEmits (handleData greetFrame) = 1
      ∧ countErrors (handleData greetFrame) = 0 :=
  ⟨rfl, rfl, rfl, rfl⟩

/-- C1 (amended): the decoder keeps no leftover between chunks: every
piece, the one after the last delimiter included, is parsed immediately.
Splitting the frame for `("greet", "hi")` into two chunks dispatches its
event exactly once only when the cut is at offset 0, at the JSON-text /
delimiter boundary, or at the end of the frame — at every other offset
nothing is dispatched; at the three benign offsets the two-chunk trace
equals the one-chunk trace. -/
theorem frameSplit_amended :
    (∀ k, k ≤ greetFrame.length →
      countEmits (splitDelivery k)
        = if k = 0 ∨ k = greetBody.length ∨ k = greetFrame.length then 1 else 0)
    ∧ splitDelivery 0 = handleData greetFrame
    ∧ splitDelivery greetBody.length = handleData greetFrame
    ∧ splitDelivery greetFrame.length = handleData greetFrame :=
  ⟨by decide, rfl, rfl, rfl⟩

/-- C1 (amended), instantiated at offset 5. -/
theorem frameSplit_amended_witness :
    countEmits (splitDelivery 5)
      = if (5 : Nat) = 0 ∨ (5 : Nat) = greetBody.length ∨ (5 : Nat) = greetFrame.length
        then 1 else 0 :=
  frameSplit_amended.1 5 (by decide)

/-- C2: the claim asserts that a parse failure on one candidate is
reported as a single ReceiveError and does not abort the remaining
candidates of the chunk, so one malformed candidate followed by one
well-formed frame should yield one ReceiveError and one dispatched event.
Counterexample: that chunk yields the single ReceiveError and no
dispatched event, because the `try` wraps the whole packet loop and the
first failure abandons the rest of the chunk. -/
theorem parseIsolation_cex :
    countErrors (handleData (('{' :: PACKET_DELIMITER) ++ greetFrame)) = 1
      ∧ countEmits (handleData (('{' :: PACKET_DELIMITER) ++ greetFrame)) = 0 :=
  ⟨rfl, rfl⟩

/-- C2 (amended): a parse failure is reported as a single ReceiveError but
aborts the remaining candidates of the chunk: candidates before the
malformed one are dispatched, the malformed one yields exactly one
ReceiveError, and every candidate after it — the following well-formed
frame included — is dropped. -/
theorem parseIsolation_amended (e1 e2 : List Char) (d1 d2 : Option Json)
    (h1 : delimFree (encodeBody e1 d1)) :
    handleData (encodeFrame e1 d1 ++ ('{' :: PACKET_DELIMITER) ++ encodeFrame e2 d2)
      = [.emitted (some (.jstr e1)) d1, .receiveError] :=
  handleData_malformed_mid e1 d1 e2 d2 h1

/-- C2 (amended), instantiated on `("greet","hi")` then `"{"` then
`("bye", absent)`. -/
theorem parseIsolation_amended_witness :
    handleData (encodeFrame greetE (some hiJson) ++ ('{' :: PACKET_DELIMITER)
        ++ encodeFrame "bye".data none)
      = [.emitted (some (.jstr greetE)) (some hiJson), .receiveError] :=
  parseIsolation_amended greetE "bye".data (some hiJson) none (by rfl)

/-- C3: the claim asserts that Server.emit writes the encoded frame to
every connection in a writable state, including ones that follow a
non-writable connection in iteration order, the non-writable one raising a
SendError.  Counterexample: with an `opening` client followed by an `open`
one, the loop throws SEND_ERROR at the first client and the writable
second client receives no write. -/
theorem fanout_cex :
    writableB ((⟨1, .rsOpen⟩ : SocketM).readyState) = true
      ∧ (serverEmit greetE (some hiJson) cexClients).1 = []
      ∧ (serverEmit greetE (some hiJson) cexClients).2 = some .sendError :=
  ⟨rfl, rfl, rfl⟩

/-- C3 (amended): Server.emit writes the encoded frame, in iteration
order, to exactly the longest all-writable prefix of the client set; the
first non-writable client raises SendError, aborting the loop, and the
writes already issued remain issued. -/
theorem fanout_amended (e : List Char) (d : Option Json) (clients : List SocketM) :
    serverEmit e d clients
      = ((clients.takeWhile (fun c => writableB c.readyState)).map
            (fun c => (c.id, encodeFrame e d)),
         if clients.all (fun c => writableB c.readyState) then none
         else some .sendError) :=
  serverEmitLoop_spec (encodeFrame e d) clients

/-- C4: delivering two encoded frames concatenated in a single chunk
dispatches both decoded events, in order, within the handling of that one
chunk — under the framing layer's soft invariant that the delimiter does
not occur inside the serialised bodies. -/
theorem concatFrames_ok (e1 e2 : List Char) (d1 d2 : Option Json)
    (h1 : delimFree (encodeBody e1 d1)) (h2 : delimFree (encodeBody e2 d2)) :
    handleData (encodeFrame e1 d1 ++ encodeFrame e2 d2)
      = [.emitted (some (.jstr e1)) d1, .emitted (some (.jstr e2)) d2] :=
  handleData_two_frames e1 d1 e2 d2 h1 h2

/-- C4, instantiated on `("greet","hi")` then `("bye", absent)`. -/
theorem concatFrames_ok_witness :
    handleData (encodeFrame greetE (some hiJson) ++ encodeFrame "bye".data none)
      = [.emitted (some (.jstr greetE)) (some hiJson),
         .emitted (some (.jstr "bye".data)) none] :=
  concatFrames_ok greetE "bye".data (some hiJson) none (by rfl) (by rfl)

/-- C5: Client.emit on a connection whose readyState is not writable
(`open` or `writeOnly`) raises SEND_ERROR and performs no write; on a
writable connection it performs exactly one write of the encoded frame
and raises no error (the modelled serialisation is total on serialisable
payloads). -/
theorem writeGuard_ok (st : ReadyState) (e : List Char) (d : Option Json) :
    (writableB st = false → clientEmit st e d = (none, some .sendError))
      ∧ (writableB st = true → clientEmit st e d = (some (encodeFrame e d), none)) := by
  constructor <;> intro h <;> simp [clientEmit, h]

/-- C5, instantiated at an `opening` and an `open` connection. -/
theorem writeGuard_ok_witness :
    clientEmit .opening greetE (some hiJson) = (none, some .sendError)
      ∧ clientEmit .rsOpen greetE (some hiJson)
        = (some (encodeFrame greetE (some hiJson)), none) :=
  ⟨(writeGuard_ok .opening greetE (some hiJson)).1 rfl,
   (writeGuard_ok .rsOpen greetE (some hiJson)).2 rfl⟩

/-- C6: over every well-formed connect/disconnect history, the connect
callback observes `clientCount()` already incremented and the disconnect
callback observes it already decremented, and at every observation point
the count equals the number of currently-open connections computed from
the history alone. -/
theorem clientCount_ok (es : List SrvEvent) (cur : List Nat)
    (h : wfEvents cur es = true) :
    (runSrv cur es).2 = expectedObs cur.length es
      ∧ (runSrv cur es).1.length = countOpen cur.length es :=
  runSrv_spec es cur h

/-- C6, instantiated on the history connect 0, connect 1, disconnect 0. -/
theorem clientCount_ok_witness :
    (runSrv [] [.connect 0, .connect 1, .disconnect 0]).2
        = expectedObs 0 [.connect 0, .connect 1, .disconnect 0]
      ∧ (runSrv [] [.connect 0, .connect 1, .disconnect 0]).1.length
        = countOpen 0 [.connect 0, .connect 1, .disconnect 0] :=
  clientCount_ok [.connect 0, .connect 1, .disconnect 0] [] (by rfl)

/-- C7: the claim asserts that Closed is terminal and closing twice is a
no-op, the second Server.close() completing without error.
Counterexample: from a listening server with handlers and clients, the
first close resolves, but the second close's underlying
`net.Server.close` reports that the server is not running and
main.ts:174-180 rejects the returned promise with that error. -/
theorem closeTwice_cex :
    (serverClose closedCexInit).2 = none
      ∧ (serverClose (serverClose closedCexInit).1).2 = some .notRunning :=
  ⟨rfl, rfl⟩

/-- C7 (amended): a second close changes no observable state — the handler
registry stays cleared, the client set stays empty, the server stays
non-listening — but its promise rejects with the underlying not-running
error instead of completing without error. -/
theorem closeTwice_amended (s : ServerState) :
    serverClose (serverClose s).1 = ((serverClose s).1, some .notRunning) := rfl

/-- C8: both constructors throw a TypeError exactly when options.onError
is omitted or not callable — their only eager validation — and with a
callable onError construction succeeds even when the transport setup
fails asynchronously, that failure being reported through the error
callback instead (SERVER_ERROR for the listener's bind, SOCKET_ERROR for
the connector). -/
theorem ctorValidation_ok (name : List Char) (o : CtorOptions) (b : Bool) :
    (isFunctionV o.onError = false →
      serverConstruct name o b = .error .typeError
        ∧ clientConstruct name o b = .error .typeError)
    ∧ (isFunctionV o.onError = true →
      serverConstruct name o b
          = .ok ⟨serverPipePath name, if b then [.serverError] else []⟩
        ∧ clientConstruct name o b
          = .ok ⟨clientPipePath name, if b then [.socketError] else []⟩) := by
  constructor <;> intro h <;>
    exact ⟨by simp [serverConstruct, h], by simp [clientConstruct, h]⟩

/-- C8, instantiated at an omitted callback, a non-callable callback, and
a callable callback with a failing transport setup. -/
theorem ctorValidation_ok_witness :
    (serverConstruct "demo".data ⟨none⟩ false = .error .typeError
       ∧ clientConstruct "demo".data ⟨none⟩ false = .error .typeError)
    ∧ (serverConstruct "demo".data ⟨some .jsOther⟩ false = .error .typeError
       ∧ clientConstruct "demo".data ⟨some .jsOther⟩ false = .error .typeError)
    ∧ (serverConstruct "demo".data ⟨some .jsFunction⟩ true
          = .ok ⟨serverPipePath "demo".data, [.serverError]⟩
       ∧ clientConstruct "demo".data ⟨some .jsFunction⟩ true
          = .ok ⟨clientPipePath "demo".data, [.socketError]⟩) :=
  ⟨(ctorValidation_ok "demo".data ⟨none⟩ false).1 rfl,
   (ctorValidation_ok "demo".data ⟨some .jsOther⟩ false).1 rfl,
   (ctorValidation_ok "demo".data ⟨some .jsFunction⟩ true).2 rfl⟩

/-- C9: empty pieces produced by splitting on the delimiter are silently
skipped: a chunk of only delimiter bytes produces no dispatched event and
no ReceiveError, and the empty trailing piece after a frame's terminating
delimiter adds nothing to the frame's single dispatched event. -/
theorem emptyPieces_ok (n : Nat) (e : List Char) (d : Option Json)
    (h : delimFree (encodeBody e d)) :
    handleData (delimRep n) = []
      ∧ handleData (encodeFrame e d) = [.emitted (some (.jstr e)) d] :=
  ⟨handleData_delimRep n, handleData_frame e d h⟩

/-- C9, instantiated at two delimiters and the `("greet","hi")` frame. -/
theorem emptyPieces_ok_witness :
    handleData (delimRep 2) = []
      ∧ handleData (encodeFrame greetE (some hiJson))
          = [.emitted (some (.jstr greetE)) (some hiJson)] :=
  emptyPieces_ok 2 greetE (some hiJson) (by rfl)

/-- C10: both constructors address the transport endpoint as the literal
prefix `\\.\pipe\` concatenated with the given name, unconditionally (the
model, like the source, has no platform branch): the path splits back
into exactly that prefix and the name. -/
theorem pipePath_ok (name : List Char) :
    serverPipePath name = "\\\\.\\pipe\\".data ++ name
      ∧ clientPipePath name = serverPipePath name
      ∧ (serverPipePath name).take 9 = "\\\\.\\pipe\\".data
      ∧ (serverPipePath name).drop 9 = name := by
  refine ⟨rfl, rfl, ?_, ?_⟩
  · show ("\\\\.\\pipe\\".data ++ name).take 9 = "\\\\.\\pipe\\".data
    rw [show (9 : Nat) = ("\\\\.\\pipe\\".data).length from rfl]
    exact List.take_left _ _
  · show ("\\\\.\\pipe\\".data ++ name).drop 9 = name
    rw [show (9 : Nat) = ("\\\\.\\pipe\\".data).length from rfl]
    exact List.drop_left _ _

end PipeEmitter
